import Mathlib

/-!
# Scalar broadcast kernels of `chaisql/chai` — a shallow embedding

This file embeds `src/internal/block/column/c/operations_arm64.c`: ten C
functions, one per (signed integer width, arithmetic operation) pair, each of
the form

    void intW_op_scalar(intW_t *a, intW_t b, intW_t *result, int len) {
        for (int i = 0; i < len; i++) { result[i] = a[i] OP b; }
    }

Buffers are embedded as `List Int`, machine integers as `Int` reduced to the
signed W-bit range where the operation can overflow.  Signed add/sub/mul are
embedded with two's-complement wraparound, the behaviour of the compiled
arm64 target this translation unit is written for.  The C division and
remainder operators are undefined for a zero divisor and for
`MIN_VALUE / -1`; the embedding makes those two cases explicit failures that
carry the buffer state reached when the undefined operation would have been
evaluated, and is otherwise C's truncating division (`Int.tdiv` / `Int.tmod`).

The dispatch entry point `apply` of the specification (sections 6 and 7) and
the aliased (in-place) call are part of the repository's dispatch layer, which
is outside the analysed source; they are modelled from the spec where so
marked below.
-/

deriving instance DecidableEq for Except

namespace Chai

/-- Reduce an integer to the signed two's-complement range of width `w`:
the unique representative of `x` modulo `2 ^ w` inside
`[-2 ^ (w - 1), 2 ^ (w - 1))`. -/
def wrap (w : Nat) (x : Int) : Int :=
  (x + 2 ^ (w - 1)) % 2 ^ w - 2 ^ (w - 1)

/-- The smallest signed value of width `w` (`MIN_VALUE(W)`). -/
def minValue (w : Nat) : Int := -(2 ^ (w - 1))

/-- Error taxonomy of the kernel layer (spec section 7). -/
inductive KernelError where
  | divisionByZero
  | overflow
deriving DecidableEq

/-- C's `/` on signed `w`-bit integers: truncating division, undefined for a
zero divisor and for `MIN_VALUE / -1`; the undefined cases are explicit
failures here. -/
def cDiv (w : Nat) (x y : Int) : Except KernelError Int :=
  if y = 0 then .error .divisionByZero
  else if x = minValue w ∧ y = -1 then .error .overflow
  else .ok (x.tdiv y)

/-- C's `%` on signed `w`-bit integers: remainder of truncating division,
undefined exactly where `cDiv` is. -/
def cMod (w : Nat) (x y : Int) : Except KernelError Int :=
  if y = 0 then .error .divisionByZero
  else if x = minValue w ∧ y = -1 then .error .overflow
  else .ok (x.tmod y)

/-- The C loop `for (int i = 0; i < len; i++) result[i] = f(a[i]);` for a
body `f` that is defined everywhere, rendered structurally: `i` is the
current index and `fuel` the number of iterations still to run, so a call
with `fuel = len` and `i = 0` is the whole loop. -/
def totalLoop (f : Int → Int) (a : List Int) (fuel i : Nat)
    (result : List Int) : List Int :=
  match fuel with
  | 0 => result
  | n + 1 => totalLoop f a n (i + 1) (result.set i (f (a.getD i 0)))

/-- The C loop `for (int i = 0; i < len; i++) result[i] = f(a[i]);` for a
body that may be undefined: execution stops at the first undefined element,
carrying the buffer state reached at that point. -/
def fallibleLoop (f : Int → Except KernelError Int) (a : List Int)
    (fuel i : Nat) (result : List Int) :
    Except (KernelError × List Int) (List Int) :=
  match fuel with
  | 0 => .ok result
  | n + 1 =>
    match f (a.getD i 0) with
    | .error e => .error (e, result)
    | .ok v => fallibleLoop f a n (i + 1) (result.set i v)

/-- Embeds `int64_add_scalar` of `operations_arm64.c`. -/
def int64_add_scalar (a : List Int) (b : Int) (result : List Int) (len : Int) :
    List Int :=
  totalLoop (fun x => wrap 64 (x + b)) a len.toNat 0 result

/-- Embeds `int64_sub_scalar` of `operations_arm64.c`. -/
def int64_sub_scalar (a : List Int) (b : Int) (result : List Int) (len : Int) :
    List Int :=
  totalLoop (fun x => wrap 64 (x - b)) a len.toNat 0 result

/-- Embeds `int64_mul_scalar` of `operations_arm64.c`. -/
def int64_mul_scalar (a : List Int) (b : Int) (result : List Int) (len : Int) :
    List Int :=
  totalLoop (fun x => wrap 64 (x * b)) a len.toNat 0 result

/-- Embeds `int64_div_scalar` of `operations_arm64.c`. -/
def int64_div_scalar (a : List Int) (b : Int) (result : List Int) (len : Int) :
    Except (KernelError × List Int) (List Int) :=
  fallibleLoop (fun x => cDiv 64 x b) a len.toNat 0 result

/-- Embeds `int64_mod_scalar` of `operations_arm64.c`. -/
def int64_mod_scalar (a : List Int) (b : Int) (result : List Int) (len : Int) :
    Except (KernelError × List Int) (List Int) :=
  fallibleLoop (fun x => cMod 64 x b) a len.toNat 0 result

/-- Embeds `int32_add_scalar` of `operations_arm64.c`. -/
def int32_add_scalar (a : List Int) (b : Int) (result : List Int) (len : Int) :
    List Int :=
  totalLoop (fun x => wrap 32 (x + b)) a len.toNat 0 result

/-- Embeds `int32_sub_scalar` of `operations_arm64.c`. -/
def int32_sub_scalar (a : List Int) (b : Int) (result : List Int) (len : Int) :
    List Int :=
  totalLoop (fun x => wrap 32 (x - b)) a len.toNat 0 result

/-- Embeds `int32_mul_scalar` of `operations_arm64.c`. -/
def int32_mul_scalar (a : List Int) (b : Int) (result : List Int) (len : Int) :
    List Int :=
  totalLoop (fun x => wrap 32 (x * b)) a len.toNat 0 result

/-- Embeds `int32_div_scalar` of `operations_arm64.c`. -/
def int32_div_scalar (a : List Int) (b : Int) (result : List Int) (len : Int) :
    Except (KernelError × List Int) (List Int) :=
  fallibleLoop (fun x => cDiv 32 x b) a len.toNat 0 result

/-- Embeds `int32_mod_scalar` of `operations_arm64.c`. -/
def int32_mod_scalar (a : List Int) (b : Int) (result : List Int) (len : Int) :
    Except (KernelError × List Int) (List Int) :=
  fallibleLoop (fun x => cMod 32 x b) a len.toNat 0 result

/-- Operation kinds of the kernel set (spec section 3): a closed enumeration. -/
inductive OperationKind where
  | add
  | subtract
  | multiply
  | divide
  | modulo
deriving DecidableEq

/-- Widths of the kernel set (spec section 3). -/
inductive Width where
  | w32
  | w64
deriving DecidableEq

/-- Bit width of a `Width`. -/
def Width.bits : Width → Nat
  | .w32 => 32
  | .w64 => 64

/-- Modelled from the spec: the entry point
`apply(operation, width, input, scalar, output)` of section 6 belongs to the
repository's operator/type dispatch layer, which is outside the analysed
source file.  Following sections 6 and 7 it dispatches on width and operation
to the kernels above (`len` is the input length), checks a zero divisor once
before the elementwise loop begins so that a `DivisionByZero` failure writes
nothing, and aborts the whole call at the first `MIN_VALUE / -1` element with
an `Overflow` failure carrying the partially written output. -/
def apply (op : OperationKind) (w : Width) (input : List Int) (scalar : Int)
    (output : List Int) : Except (KernelError × List Int) (List Int) :=
  match w, op with
  | .w64, .add => .ok (int64_add_scalar input scalar output input.length)
  | .w64, .subtract => .ok (int64_sub_scalar input scalar output input.length)
  | .w64, .multiply => .ok (int64_mul_scalar input scalar output input.length)
  | .w64, .divide =>
      if scalar = 0 then .error (.divisionByZero, output)
      else int64_div_scalar input scalar output input.length
  | .w64, .modulo =>
      if scalar = 0 then .error (.divisionByZero, output)
      else int64_mod_scalar input scalar output input.length
  | .w32, .add => .ok (int32_add_scalar input scalar output input.length)
  | .w32, .subtract => .ok (int32_sub_scalar input scalar output input.length)
  | .w32, .multiply => .ok (int32_mul_scalar input scalar output input.length)
  | .w32, .divide =>
      if scalar = 0 then .error (.divisionByZero, output)
      else int32_div_scalar input scalar output input.length
  | .w32, .modulo =>
      if scalar = 0 then .error (.divisionByZero, output)
      else int32_mod_scalar input scalar output input.length

/-- The total-body C loop executed in place (`result == a`): there is one
buffer, and the read `a[i]` of iteration `i` observes the writes of earlier
iterations of the same call. -/
def totalLoopAliased (f : Int → Int) (fuel i : Nat) (buf : List Int) :
    List Int :=
  match fuel with
  | 0 => buf
  | n + 1 => totalLoopAliased f n (i + 1) (buf.set i (f (buf.getD i 0)))

/-- The fallible-body C loop executed in place (`result == a`). -/
def fallibleLoopAliased (f : Int → Except KernelError Int) (fuel i : Nat)
    (buf : List Int) : Except (KernelError × List Int) (List Int) :=
  match fuel with
  | 0 => .ok buf
  | n + 1 =>
    match f (buf.getD i 0) with
    | .error e => .error (e, buf)
    | .ok v => fallibleLoopAliased f n (i + 1) (buf.set i v)

/-- Modelled from the spec: the in-place invocation of section 3, in which
`output` aliases `input`, so the kernel loops run over a single buffer. -/
def applyAliased (op : OperationKind) (w : Width) (buf : List Int)
    (scalar : Int) : Except (KernelError × List Int) (List Int) :=
  match w, op with
  | .w64, .add =>
      .ok (totalLoopAliased (fun x => wrap 64 (x + scalar)) buf.length 0 buf)
  | .w64, .subtract =>
      .ok (totalLoopAliased (fun x => wrap 64 (x - scalar)) buf.length 0 buf)
  | .w64, .multiply =>
      .ok (totalLoopAliased (fun x => wrap 64 (x * scalar)) buf.length 0 buf)
  | .w64, .divide =>
      if scalar = 0 then .error (.divisionByZero, buf)
      else fallibleLoopAliased (fun x => cDiv 64 x scalar) buf.length 0 buf
  | .w64, .modulo =>
      if scalar = 0 then .error (.divisionByZero, buf)
      else fallibleLoopAliased (fun x => cMod 64 x scalar) buf.length 0 buf
  | .w32, .add =>
      .ok (totalLoopAliased (fun x => wrap 32 (x + scalar)) buf.length 0 buf)
  | .w32, .subtract =>
      .ok (totalLoopAliased (fun x => wrap 32 (x - scalar)) buf.length 0 buf)
  | .w32, .multiply =>
      .ok (totalLoopAliased (fun x => wrap 32 (x * scalar)) buf.length 0 buf)
  | .w32, .divide =>
      if scalar = 0 then .error (.divisionByZero, buf)
      else fallibleLoopAliased (fun x => cDiv 32 x scalar) buf.length 0 buf
  | .w32, .modulo =>
      if scalar = 0 then .error (.divisionByZero, buf)
      else fallibleLoopAliased (fun x => cMod 32 x scalar) buf.length 0 buf

/-- The buffer a kernel call leaves behind: the fully written output on
success, the partially written output carried by the failure otherwise. -/
def applyBuf : Except (KernelError × List Int) (List Int) → List Int
  | .ok r => r
  | .error (_, r) => r

/-- What "the kernel wrote the output" means: same length as the initial
output buffer, element `i` holds `f a[i]` for every index of the input, and
every index at or beyond the input length is untouched. -/
def kernelWrites (f : Int → Int) (initial final a : List Int) : Prop :=
  final.length = initial.length ∧
  (∀ i, i < a.length → final.getD i 0 = f (a.getD i 0)) ∧
  ∀ j d, a.length ≤ j → final.getD j d = initial.getD j d

/-- Lifts `kernelWrites` through the success case of a fallible kernel. -/
def okKernelWrites (f : Int → Int) (initial : List Int)
    (res : Except (KernelError × List Int) (List Int)) (a : List Int) : Prop :=
  ∃ final, res = .ok final ∧ kernelWrites f initial final a

/-- A successful `apply` whose output elements are `f` of the input elements. -/
def applyOk (op : OperationKind) (w : Width) (a : List Int) (b : Int)
    (out : List Int) (f : Int → Int) : Prop :=
  ∃ r, apply op w a b out = .ok r ∧
    ∀ i, i < a.length → i < out.length → r.getD i 0 = f (a.getD i 0)

/-! ## List helpers -/

lemma getD_set_self {l : List Int} {i : Nat} (v d : Int) (h : i < l.length) :
    (l.set i v).getD i d = v := by
  simp [List.getD_eq_getElem?_getD, List.getElem?_set, h]

lemma getD_set_ne {l : List Int} {i j : Nat} (v d : Int) (h : i ≠ j) :
    (l.set i v).getD j d = l.getD j d := by
  simp [List.getD_eq_getElem?_getD, List.getElem?_set, h]

lemma list_eq_of_getD {l1 l2 : List Int} (hlen : l1.length = l2.length)
    (h : ∀ i, i < l2.length → l1.getD i 0 = l2.getD i 0) : l1 = l2 := by
  refine List.ext_getElem hlen ?_
  intro n h1 h2
  rw [← List.getD_eq_getElem l1 0 h1, ← List.getD_eq_getElem l2 0 h2]
  exact h n h2

lemma drop_eq_of_getD {l1 l2 : List Int} (n : Nat)
    (hlen : l1.length = l2.length)
    (h : ∀ j, n ≤ j → l1.getD j 0 = l2.getD j 0) :
    l1.drop n = l2.drop n := by
  refine List.ext_getElem (by simp [hlen]) ?_
  intro k h1 h2
  rw [List.getElem_drop, List.getElem_drop]
  have hk1 : n + k < l1.length := by
    have := List.length_drop n l1
    omega
  have hk2 : n + k < l2.length := by omega
  rw [← List.getD_eq_getElem l1 0 hk1, ← List.getD_eq_getElem l2 0 hk2]
  exact h (n + k) (by omega)

/-! ## Two's-complement wraparound -/

/-- A value already inside the signed `w`-bit range is fixed by `wrap w`. -/
lemma wrap_eq_self {w : Nat} (hw : 0 < w) {x : Int}
    (h1 : -(2 ^ (w - 1)) ≤ x) (h2 : x < 2 ^ (w - 1)) : wrap w x = x := by
  unfold wrap
  have hpow : (2 : Int) ^ w = 2 ^ (w - 1) * 2 := by
    rw [← pow_succ]
    congr 1
    omega
  have hM : (0 : Int) < 2 ^ (w - 1) := by positivity
  rw [Int.emod_eq_of_lt (by omega) (by omega)]
  omega

/-! ## Truncating division and remainder -/

lemma tmod_neg_left (x y : Int) : (-x).tmod y = -(x.tmod y) := by
  rw [Int.tmod_def, Int.tmod_def, Int.neg_tdiv]
  ring

/-- The remainder of C (truncating) division is zero or has the sign of the
dividend. -/
lemma tmod_sign_cases (x y : Int) :
    x.tmod y = 0 ∨ (0 < x.tmod y ∧ 0 < x) ∨ (x.tmod y < 0 ∧ x < 0) := by
  rcases lt_trichotomy x 0 with hx | hx | hx
  · have h1 : 0 ≤ (-x).tmod y := Int.tmod_nonneg y (by omega)
    have h2 : (-x).tmod y = -(x.tmod y) := tmod_neg_left x y
    rcases eq_or_lt_of_le (show x.tmod y ≤ 0 by omega) with h | h
    · exact Or.inl h
    · exact Or.inr (Or.inr ⟨h, hx⟩)
  · subst hx
    simp [Int.zero_tmod]
  · have h1 : 0 ≤ x.tmod y := Int.tmod_nonneg y (le_of_lt hx)
    rcases eq_or_lt_of_le h1 with h | h
    · exact Or.inl h.symm
    · exact Or.inr (Or.inl ⟨h, hx⟩)

/-- The remainder of C (truncating) division is smaller than the divisor in
absolute value. -/
lemma natAbs_tmod_lt (x : Int) {y : Int} (hy : y ≠ 0) :
    (x.tmod y).natAbs < y.natAbs := by
  have key : ∀ z : Int, 0 < z → ∀ u : Int, -z < u.tmod z ∧ u.tmod z < z := by
    intro z hz u
    refine ⟨?_, Int.tmod_lt_of_pos u hz⟩
    have h := Int.tmod_lt_of_pos (-u) hz
    rw [tmod_neg_left] at h
    omega
  rcases lt_trichotomy y 0 with h | h | h
  · have hb := key (-y) (by omega) x
    rw [Int.tmod_neg] at hb
    omega
  · exact absurd h hy
  · have hb := key y h x
    omega

/-! ## Loop characterisation -/

lemma totalLoop_length (f : Int → Int) (a : List Int) :
    ∀ fuel i r, (totalLoop f a fuel i r).length = r.length := by
  intro fuel
  induction fuel with
  | zero => intro i r; rfl
  | succ n ih =>
      intro i r
      rw [totalLoop, ih]
      exact List.length_set r i _

lemma totalLoop_getD_frame (f : Int → Int) (a : List Int) :
    ∀ fuel i r j d, j < i ∨ i + fuel ≤ j →
      (totalLoop f a fuel i r).getD j d = r.getD j d := by
  intro fuel
  induction fuel with
  | zero => intro i r j d _; rfl
  | succ n ih =>
      intro i r j d hj
      rw [totalLoop, ih (i + 1) _ j d (by omega)]
      exact getD_set_ne _ _ (by omega)

lemma totalLoop_getD_written (f : Int → Int) (a : List Int) :
    ∀ fuel i r j, i ≤ j → j < i + fuel → j < r.length →
      (totalLoop f a fuel i r).getD j 0 = f (a.getD j 0) := by
  intro fuel
  induction fuel with
  | zero => intro i r j _ h _; omega
  | succ n ih =>
      intro i r j hij hj hr
      rw [totalLoop]
      rcases eq_or_lt_of_le hij with h | h
      · subst h
        rw [totalLoop_getD_frame f a n (i + 1) _ i 0 (by omega)]
        exact getD_set_self _ _ hr
      · exact ih (i + 1) _ j h (by omega) (by rw [List.length_set]; exact hr)

lemma fallibleLoop_ok (f : Int → Except KernelError Int) (g : Int → Int)
    (a : List Int) :
    ∀ fuel i r, (∀ k, i ≤ k → k < i + fuel →
        f (a.getD k 0) = .ok (g (a.getD k 0))) →
      fallibleLoop f a fuel i r = .ok (totalLoop g a fuel i r) := by
  intro fuel
  induction fuel with
  | zero => intro i r _; rfl
  | succ n ih =>
      intro i r hall
      rw [fallibleLoop, totalLoop, hall i i.le_refl (by omega)]
      exact ih (i + 1) _ (fun k h1 h2 => hall k (by omega) (by omega))

lemma fallibleLoop_error (f : Int → Except KernelError Int) (a : List Int)
    (e : KernelError) :
    ∀ fuel i r,
      (∀ k, i ≤ k → k < i + fuel →
        (∃ v, f (a.getD k 0) = .ok v) ∨ f (a.getD k 0) = .error e) →
      (∃ k, i ≤ k ∧ k < i + fuel ∧ f (a.getD k 0) = .error e) →
      ∃ buf, fallibleLoop f a fuel i r = .error (e, buf) := by
  intro fuel
  induction fuel with
  | zero =>
      intro i r _ hex
      obtain ⟨k, h1, h2, _⟩ := hex
      omega
  | succ n ih =>
      intro i r hall hex
      rw [fallibleLoop]
      rcases h : f (a.getD i 0) with e' | v
      · rcases hall i i.le_refl (by omega) with ⟨v, hv⟩ | hv
        · rw [h] at hv; exact absurd hv (by simp)
        · rw [h] at hv
          obtain rfl : e' = e := by injection hv
          exact ⟨r, rfl⟩
      · refine ih (i + 1) _ (fun k h1 h2 => hall k (by omega) (by omega)) ?_
        obtain ⟨k, h1, h2, hk⟩ := hex
        rcases eq_or_lt_of_le h1 with rfl | h1'
        · rw [h] at hk; exact absurd hk (by simp)
        · exact ⟨k, h1', by omega, hk⟩

lemma fallibleLoop_buf_length (f : Int → Except KernelError Int)
    (a : List Int) :
    ∀ fuel i r, (applyBuf (fallibleLoop f a fuel i r)).length = r.length := by
  intro fuel
  induction fuel with
  | zero => intro i r; rfl
  | succ n ih =>
      intro i r
      rw [fallibleLoop]
      rcases h : f (a.getD i 0) with e | v
      · rfl
      · rw [ih (i + 1)]
        exact List.length_set r i v

lemma fallibleLoop_buf_frame (f : Int → Except KernelError Int)
    (a : List Int) :
    ∀ fuel i r j d, j < i ∨ i + fuel ≤ j →
      (applyBuf (fallibleLoop f a fuel i r)).getD j d = r.getD j d := by
  intro fuel
  induction fuel with
  | zero => intro i r j d _; rfl
  | succ n ih =>
      intro i r j d hj
      rw [fallibleLoop]
      rcases h : f (a.getD i 0) with e | v
      · rfl
      · rw [ih (i + 1) _ j d (by omega)]
        exact getD_set_ne _ _ (by omega)

/-! ## Aliased (in-place) execution agrees with two-buffer execution -/

lemma totalLoopAliased_eq (f : Int → Int) (a : List Int) :
    ∀ fuel i buf, (∀ j, i ≤ j → buf.getD j 0 = a.getD j 0) →
      totalLoopAliased f fuel i buf = totalLoop f a fuel i buf := by
  intro fuel
  induction fuel with
  | zero => intro i buf _; rfl
  | succ n ih =>
      intro i buf h
      rw [totalLoopAliased, totalLoop, h i i.le_refl]
      exact ih (i + 1) _ (fun j hj => by
        rw [getD_set_ne _ _ (by omega)]
        exact h j (by omega))

lemma fallibleLoopAliased_eq (f : Int → Except KernelError Int)
    (a : List Int) :
    ∀ fuel i buf, (∀ j, i ≤ j → buf.getD j 0 = a.getD j 0) →
      fallibleLoopAliased f fuel i buf = fallibleLoop f a fuel i buf := by
  intro fuel
  induction fuel with
  | zero => intro i buf _; rfl
  | succ n ih =>
      intro i buf h
      rw [fallibleLoopAliased, fallibleLoop, h i i.le_refl]
      rcases hf : f (a.getD i 0) with e | v
      · rfl
      · exact ih (i + 1) _ (fun j hj => by
          rw [getD_set_ne _ _ (by omega)]
          exact h j (by omega))

/-! ## Kernel-shaped corollaries -/

lemma totalKernel_writes (f : Int → Int) (a r : List Int)
    (hlen : r.length = a.length) :
    kernelWrites f r (totalLoop f a a.length 0 r) a := by
  refine ⟨totalLoop_length f a a.length 0 r, ?_, ?_⟩
  · intro i hi
    exact totalLoop_getD_written f a a.length 0 r i (Nat.zero_le i)
      (by omega) (by omega)
  · intro j d hj
    exact totalLoop_getD_frame f a a.length 0 r j d (Or.inr (by omega))

lemma fallibleKernel_writes (f : Int → Except KernelError Int) (g : Int → Int)
    (a r : List Int) (hlen : r.length = a.length)
    (hall : ∀ k, k < a.length → f (a.getD k 0) = .ok (g (a.getD k 0))) :
    okKernelWrites g r (fallibleLoop f a a.length 0 r) a := by
  refine ⟨totalLoop g a a.length 0 r, ?_, totalKernel_writes g a r hlen⟩
  exact fallibleLoop_ok f g a a.length 0 r
    (fun k h1 h2 => hall k (by omega))

lemma applyOk_of_kernel (op : OperationKind) (w : Width) (a : List Int)
    (b : Int) (out : List Int) (f : Int → Int)
    (hker : apply op w a b out = .ok (totalLoop f a a.length 0 out)) :
    applyOk op w a b out f := by
  refine ⟨_, hker, ?_⟩
  intro i hi hio
  exact totalLoop_getD_written f a a.length 0 out i (Nat.zero_le i)
    (by omega) hio

lemma buf_spec_total (f : Int → Int) (a out : List Int) :
    (totalLoop f a a.length 0 out).length = out.length ∧
    (totalLoop f a a.length 0 out).drop a.length = out.drop a.length :=
  ⟨totalLoop_length f a a.length 0 out,
   drop_eq_of_getD a.length (totalLoop_length f a a.length 0 out)
     (fun j hj =>
       totalLoop_getD_frame f a a.length 0 out j 0 (Or.inr (by omega)))⟩

lemma buf_spec_fallible (f : Int → Except KernelError Int) (a out : List Int) :
    (applyBuf (fallibleLoop f a a.length 0 out)).length = out.length ∧
    (applyBuf (fallibleLoop f a a.length 0 out)).drop a.length =
      out.drop a.length :=
  ⟨fallibleLoop_buf_length f a a.length 0 out,
   drop_eq_of_getD a.length (fallibleLoop_buf_length f a a.length 0 out)
     (fun j hj =>
       fallibleLoop_buf_frame f a a.length 0 out j 0 (Or.inr (by omega)))⟩

/-! ## Statement vocabulary for the claims -/

/-- The per-claim conclusion about all ten kernels: each one populates
`result[0, len)` with its element operation and touches nothing else
(`len` being the input length). -/
def allKernelsWrite (a result : List Int) (b : Int) : Prop :=
  kernelWrites (fun x => wrap 64 (x + b)) result
    (int64_add_scalar a b result a.length) a ∧
  kernelWrites (fun x => wrap 64 (x - b)) result
    (int64_sub_scalar a b result a.length) a ∧
  kernelWrites (fun x => wrap 64 (x * b)) result
    (int64_mul_scalar a b result a.length) a ∧
  okKernelWrites (fun x => x.tdiv b) result
    (int64_div_scalar a b result a.length) a ∧
  okKernelWrites (fun x => x.tmod b) result
    (int64_mod_scalar a b result a.length) a ∧
  kernelWrites (fun x => wrap 32 (x + b)) result
    (int32_add_scalar a b result a.length) a ∧
  kernelWrites (fun x => wrap 32 (x - b)) result
    (int32_sub_scalar a b result a.length) a ∧
  kernelWrites (fun x => wrap 32 (x * b)) result
    (int32_mul_scalar a b result a.length) a ∧
  okKernelWrites (fun x => x.tdiv b) result
    (int32_div_scalar a b result a.length) a ∧
  okKernelWrites (fun x => x.tmod b) result
    (int32_mod_scalar a b result a.length) a

/-- Divide and Modulo both succeed and, elementwise, return the truncating
quotient and the remainder of truncating division: they satisfy the
Euclidean identity, the remainder is smaller than the divisor in absolute
value, and the remainder is zero or has the sign of the dividend. -/
def divModOk (w : Width) (a out : List Int) (b : Int) : Prop :=
  ∃ q r, apply .divide w a b out = .ok q ∧ apply .modulo w a b out = .ok r ∧
    ∀ i, i < a.length → i < out.length →
      q.getD i 0 = (a.getD i 0).tdiv b ∧
      r.getD i 0 = (a.getD i 0).tmod b ∧
      b * q.getD i 0 + r.getD i 0 = a.getD i 0 ∧
      (r.getD i 0).natAbs < b.natAbs ∧
      (r.getD i 0 = 0 ∨ (0 < r.getD i 0 ∧ 0 < a.getD i 0) ∨
        (r.getD i 0 < 0 ∧ a.getD i 0 < 0))

/-- One add-then-subtract round trip at width `wb`, at the level of the
kernel loops: when every input and every intermediate sum is in range, the
final buffer is the original input. -/
lemma roundTrip_core (wb : Nat) (hw : 0 < wb) (a tmp out : List Int) (b : Int)
    (h1 : tmp.length = a.length) (h2 : out.length = a.length)
    (hin : ∀ i, i < a.length →
      -(2 ^ (wb - 1)) ≤ a.getD i 0 ∧ a.getD i 0 < 2 ^ (wb - 1))
    (hsum : ∀ i, i < a.length →
      -(2 ^ (wb - 1)) ≤ a.getD i 0 + b ∧ a.getD i 0 + b < 2 ^ (wb - 1)) :
    totalLoop (fun x => wrap wb (x - b))
      (totalLoop (fun x => wrap wb (x + b)) a a.length 0 tmp)
      (totalLoop (fun x => wrap wb (x + b)) a a.length 0 tmp).length 0 out =
      a := by
  set t := totalLoop (fun x => wrap wb (x + b)) a a.length 0 tmp with ht
  have htlen : t.length = a.length := by
    rw [ht, totalLoop_length, h1]
  have htget : ∀ i, i < a.length → t.getD i 0 = a.getD i 0 + b := by
    intro i hi
    rw [ht, totalLoop_getD_written _ a a.length 0 tmp i (Nat.zero_le i)
      (by omega) (by omega)]
    exact wrap_eq_self hw (hsum i hi).1 (hsum i hi).2
  refine list_eq_of_getD (by rw [totalLoop_length, h2]) ?_
  intro i hi
  rw [totalLoop_getD_written _ t t.length 0 out i (Nat.zero_le i)
    (by omega) (by omega)]
  show wrap wb (t.getD i 0 - b) = a.getD i 0
  rw [htget i hi, add_sub_cancel_right]
  exact wrap_eq_self hw (hin i hi).1 (hin i hi).2

/-! ## The claims -/

/-- C1: for every operation and width, given equal-length buffers and the
divide/modulo preconditions (`b ≠ 0` and no `MIN_VALUE / -1` element), the
kernel writes `result[i] = a[i] OP b` for every `i` in `[0, len)` and writes
no other index of `result`. -/
theorem claim_C1 (a result : List Int) (b : Int)
    (hlen : result.length = a.length) (hb : b ≠ 0)
    (h64 : ∀ i, i < a.length → ¬(a.getD i 0 = minValue 64 ∧ b = -1))
    (h32 : ∀ i, i < a.length → ¬(a.getD i 0 = minValue 32 ∧ b = -1)) :
    allKernelsWrite a result b := by
  have hcast : ((a.length : Int)).toNat = a.length := Int.toNat_natCast a.length
  refine ⟨?_, ?_, ?_, ?_, ?_, ?_, ?_, ?_, ?_, ?_⟩
  · simp only [int64_add_scalar, hcast]
    exact totalKernel_writes _ a result hlen
  · simp only [int64_sub_scalar, hcast]
    exact totalKernel_writes _ a result hlen
  · simp only [int64_mul_scalar, hcast]
    exact totalKernel_writes _ a result hlen
  · simp only [int64_div_scalar, hcast]
    exact fallibleKernel_writes _ _ a result hlen
      (fun k hk => by rw [cDiv, if_neg hb, if_neg (h64 k hk)])
  · simp only [int64_mod_scalar, hcast]
    exact fallibleKernel_writes _ _ a result hlen
      (fun k hk => by rw [cMod, if_neg hb, if_neg (h64 k hk)])
  · simp only [int32_add_scalar, hcast]
    exact totalKernel_writes _ a result hlen
  · simp only [int32_sub_scalar, hcast]
    exact totalKernel_writes _ a result hlen
  · simp only [int32_mul_scalar, hcast]
    exact totalKernel_writes _ a result hlen
  · simp only [int32_div_scalar, hcast]
    exact fallibleKernel_writes _ _ a result hlen
      (fun k hk => by rw [cDiv, if_neg hb, if_neg (h32 k hk)])
  · simp only [int32_mod_scalar, hcast]
    exact fallibleKernel_writes _ _ a result hlen
      (fun k hk => by rw [cMod, if_neg hb, if_neg (h32 k hk)])

/-- C1 witness: the ten kernels on `a = [5, -7]`, `b = 3`,
`result = [0, 0]`. -/
theorem claim_C1_witness :
    (([0, 0] : List Int).length = ([5, -7] : List Int).length ∧
     (3 : Int) ≠ 0 ∧
     (∀ i, i < ([5, -7] : List Int).length →
       ¬(([5, -7] : List Int).getD i 0 = minValue 64 ∧ (3 : Int) = -1)) ∧
     (∀ i, i < ([5, -7] : List Int).length →
       ¬(([5, -7] : List Int).getD i 0 = minValue 32 ∧ (3 : Int) = -1))) ∧
    allKernelsWrite [5, -7] [0, 0] 3 :=
  ⟨⟨by decide, by decide, by decide, by decide⟩,
   claim_C1 [5, -7] [0, 0] 3 (by decide) (by decide) (by decide) (by decide)⟩

/-- C2: for every width, buffer and scalar, the Add, Subtract and Multiply
entries succeed — overflow is never an error — and every output element is
the exact two's-complement wraparound (modulo `2 ^ W`) of the native
operation: `out[i] = wrap W (a[i] + b)`, and likewise for `-` and `*`. -/
theorem claim_C2 (w : Width) (a : List Int) (b : Int) (out : List Int) :
    applyOk .add w a b out (fun x => wrap w.bits (x + b)) ∧
    applyOk .subtract w a b out (fun x => wrap w.bits (x - b)) ∧
    applyOk .multiply w a b out (fun x => wrap w.bits (x * b)) := by
  have hcast : ((a.length : Int)).toNat = a.length := Int.toNat_natCast a.length
  cases w
  case w64 =>
    exact ⟨applyOk_of_kernel _ _ a b out _
        (by simp [apply, int64_add_scalar, hcast, Width.bits]),
      applyOk_of_kernel _ _ a b out _
        (by simp [apply, int64_sub_scalar, hcast, Width.bits]),
      applyOk_of_kernel _ _ a b out _
        (by simp [apply, int64_mul_scalar, hcast, Width.bits])⟩
  case w32 =>
    exact ⟨applyOk_of_kernel _ _ a b out _
        (by simp [apply, int32_add_scalar, hcast, Width.bits]),
      applyOk_of_kernel _ _ a b out _
        (by simp [apply, int32_sub_scalar, hcast, Width.bits]),
      applyOk_of_kernel _ _ a b out _
        (by simp [apply, int32_mul_scalar, hcast, Width.bits])⟩

/-- C2 witness: 32-bit wraparound at `INT32_MAX` with `b = 1`. -/
theorem claim_C2_witness :
    applyOk .add .w32 [2147483647] 1 [0]
      (fun x => wrap Width.w32.bits (x + 1)) ∧
    applyOk .subtract .w32 [2147483647] 1 [0]
      (fun x => wrap Width.w32.bits (x - 1)) ∧
    applyOk .multiply .w32 [2147483647] 1 [0]
      (fun x => wrap Width.w32.bits (x * 1)) :=
  claim_C2 .w32 [2147483647] 1 [0]

/-- C4: for every width, if some input element equals `MIN_VALUE(W)` and the
scalar is `-1`, the Divide and Modulo entries fail with an `Overflow` error
rather than producing an unrepresentable result. -/
theorem claim_C4 (w : Width) (a out : List Int)
    (h : ∃ i, i < a.length ∧ a.getD i 0 = minValue w.bits) :
    (∃ buf, apply .divide w a (-1) out = .error (.overflow, buf)) ∧
    (∃ buf, apply .modulo w a (-1) out = .error (.overflow, buf)) := by
  have hcast : ((a.length : Int)).toNat = a.length := Int.toNat_natCast a.length
  cases w
  case w64 =>
    simp only [Width.bits] at h
    constructor
    · simp only [apply, int64_div_scalar, hcast,
        if_neg (show ¬(-1 : Int) = 0 by decide)]
      refine fallibleLoop_error _ a .overflow a.length 0 out ?_ ?_
      · intro k h1 h2
        by_cases hm : a.getD k 0 = minValue 64
        · exact Or.inr (by rw [cDiv, if_neg (show ¬(-1 : Int) = 0 by decide), if_pos ⟨hm, rfl⟩])
        · exact Or.inl ⟨(a.getD k 0).tdiv (-1), by rw [cDiv, if_neg (show ¬(-1 : Int) = 0 by decide), if_neg (fun hc => hm hc.1)]⟩
      · obtain ⟨i, hi, hmin⟩ := h
        exact ⟨i, Nat.zero_le i, by omega, by rw [cDiv, if_neg (show ¬(-1 : Int) = 0 by decide), if_pos ⟨hmin, rfl⟩]⟩
    · simp only [apply, int64_mod_scalar, hcast,
        if_neg (show ¬(-1 : Int) = 0 by decide)]
      refine fallibleLoop_error _ a .overflow a.length 0 out ?_ ?_
      · intro k h1 h2
        by_cases hm : a.getD k 0 = minValue 64
        · exact Or.inr (by rw [cMod, if_neg (show ¬(-1 : Int) = 0 by decide), if_pos ⟨hm, rfl⟩])
        · exact Or.inl ⟨(a.getD k 0).tmod (-1), by rw [cMod, if_neg (show ¬(-1 : Int) = 0 by decide), if_neg (fun hc => hm hc.1)]⟩
      · obtain ⟨i, hi, hmin⟩ := h
        exact ⟨i, Nat.zero_le i, by omega, by rw [cMod, if_neg (show ¬(-1 : Int) = 0 by decide), if_pos ⟨hmin, rfl⟩]⟩
  case w32 =>
    simp only [Width.bits] at h
    constructor
    · simp only [apply, int32_div_scalar, hcast,
        if_neg (show ¬(-1 : Int) = 0 by decide)]
      refine fallibleLoop_error _ a .overflow a.length 0 out ?_ ?_
      · intro k h1 h2
        by_cases hm : a.getD k 0 = minValue 32
        · exact Or.inr (by rw [cDiv, if_neg (show ¬(-1 : Int) = 0 by decide), if_pos ⟨hm, rfl⟩])
        · exact Or.inl ⟨(a.getD k 0).tdiv (-1), by rw [cDiv, if_neg (show ¬(-1 : Int) = 0 by decide), if_neg (fun hc => hm hc.1)]⟩
      · obtain ⟨i, hi, hmin⟩ := h
        exact ⟨i, Nat.zero_le i, by omega, by rw [cDiv, if_neg (show ¬(-1 : Int) = 0 by decide), if_pos ⟨hmin, rfl⟩]⟩
    · simp only [apply, int32_mod_scalar, hcast,
        if_neg (show ¬(-1 : Int) = 0 by decide)]
      refine fallibleLoop_error _ a .overflow a.length 0 out ?_ ?_
      · intro k h1 h2
        by_cases hm : a.getD k 0 = minValue 32
        · exact Or.inr (by rw [cMod, if_neg (show ¬(-1 : Int) = 0 by decide), if_pos ⟨hm, rfl⟩])
        · exact Or.inl ⟨(a.getD k 0).tmod (-1), by rw [cMod, if_neg (show ¬(-1 : Int) = 0 by decide), if_neg (fun hc => hm hc.1)]⟩
      · obtain ⟨i, hi, hmin⟩ := h
        exact ⟨i, Nat.zero_le i, by omega, by rw [cMod, if_neg (show ¬(-1 : Int) = 0 by decide), if_pos ⟨hmin, rfl⟩]⟩

/-- C4 witness: 32-bit Divide and Modulo on `[INT32_MIN]` with scalar `-1`
fail with `Overflow`. -/
theorem claim_C4_witness :
    (∃ i, i < ([-2147483648] : List Int).length ∧
      ([-2147483648] : List Int).getD i 0 = minValue Width.w32.bits) ∧
    ((∃ buf, apply .divide .w32 [-2147483648] (-1) [0] =
        .error (.overflow, buf)) ∧
     (∃ buf, apply .modulo .w32 [-2147483648] (-1) [0] =
        .error (.overflow, buf))) :=
  ⟨⟨0, by decide, by decide⟩,
   claim_C4 .w32 [-2147483648] [0] ⟨0, by decide, by decide⟩⟩

/-- C5: for every width, scalar `b ≠ 0` and no `MIN_VALUE / -1` element,
Divide computes the truncating quotient (rounded toward zero) and Modulo
the remainder of truncating division — `b * q[i] + r[i] = a[i]`,
`|r[i]| < |b|`, and `r[i]` is zero or has the sign of the dividend; in
particular `-7 mod 3` is `-1`, not `2`. -/
theorem claim_C5 (w : Width) (a out : List Int) (b : Int) (hb : b ≠ 0)
    (hmin : ∀ i, i < a.length →
      ¬(a.getD i 0 = minValue w.bits ∧ b = -1)) :
    divModOk w a out b := by
  have hcast : ((a.length : Int)).toNat = a.length := Int.toNat_natCast a.length
  cases w
  case w64 =>
    simp only [Width.bits] at hmin
    refine ⟨totalLoop (fun x => Int.tdiv x b) a a.length 0 out,
            totalLoop (fun x => Int.tmod x b) a a.length 0 out, ?_, ?_, ?_⟩
    · simp only [apply, int64_div_scalar, hcast, if_neg hb]
      exact fallibleLoop_ok _ _ a a.length 0 out
        (fun k h1 h2 => by rw [cDiv, if_neg hb, if_neg (hmin k (by omega))])
    · simp only [apply, int64_mod_scalar, hcast, if_neg hb]
      exact fallibleLoop_ok _ _ a a.length 0 out
        (fun k h1 h2 => by rw [cMod, if_neg hb, if_neg (hmin k (by omega))])
    · intro i hi hio
      have hq := totalLoop_getD_written (fun x => Int.tdiv x b) a
        a.length 0 out i (Nat.zero_le i) (by omega) hio
      have hr := totalLoop_getD_written (fun x => Int.tmod x b) a
        a.length 0 out i (Nat.zero_le i) (by omega) hio
      refine ⟨hq, hr, ?_, ?_, ?_⟩
      · rw [hq, hr]
        exact Int.tdiv_add_tmod _ _
      · rw [hr]
        exact natAbs_tmod_lt _ hb
      · rw [hr]
        exact tmod_sign_cases (a.getD i 0) b
  case w32 =>
    simp only [Width.bits] at hmin
    refine ⟨totalLoop (fun x => Int.tdiv x b) a a.length 0 out,
            totalLoop (fun x => Int.tmod x b) a a.length 0 out, ?_, ?_, ?_⟩
    · simp only [apply, int32_div_scalar, hcast, if_neg hb]
      exact fallibleLoop_ok _ _ a a.length 0 out
        (fun k h1 h2 => by rw [cDiv, if_neg hb, if_neg (hmin k (by omega))])
    · simp only [apply, int32_mod_scalar, hcast, if_neg hb]
      exact fallibleLoop_ok _ _ a a.length 0 out
        (fun k h1 h2 => by rw [cMod, if_neg hb, if_neg (hmin k (by omega))])
    · intro i hi hio
      have hq := totalLoop_getD_written (fun x => Int.tdiv x b) a
        a.length 0 out i (Nat.zero_le i) (by omega) hio
      have hr := totalLoop_getD_written (fun x => Int.tmod x b) a
        a.length 0 out i (Nat.zero_le i) (by omega) hio
      refine ⟨hq, hr, ?_, ?_, ?_⟩
      · rw [hq, hr]
        exact Int.tdiv_add_tmod _ _
      · rw [hr]
        exact natAbs_tmod_lt _ hb
      · rw [hr]
        exact tmod_sign_cases (a.getD i 0) b

/-- C5 witness: at width 32, `a = [-7]`, `b = 3`, the Modulo entry returns
`[-1]` (sign of the dividend), not `[2]`. -/
theorem claim_C5_witness :
    (3 : Int) ≠ 0 ∧
    (∀ i, i < ([-7] : List Int).length →
      ¬(([-7] : List Int).getD i 0 = minValue Width.w32.bits ∧
        (3 : Int) = -1)) ∧
    divModOk .w32 [-7] [0] 3 ∧
    apply .modulo .w32 [-7] 3 [0] = .ok [-1] :=
  ⟨by decide, by decide, claim_C5 .w32 [-7] [0] 3 (by decide) (by decide),
   by decide⟩

/-- C6: for every width, adding `b` and then subtracting `b` returns the
original buffer whenever every input and every intermediate sum stays in
the signed range (no overflow in either step). -/
theorem claim_C6 (w : Width) (a tmp out : List Int) (b : Int)
    (h1 : tmp.length = a.length) (h2 : out.length = a.length)
    (hin : ∀ i, i < a.length →
      minValue w.bits ≤ a.getD i 0 ∧ a.getD i 0 < 2 ^ (w.bits - 1))
    (hsum : ∀ i, i < a.length →
      minValue w.bits ≤ a.getD i 0 + b ∧ a.getD i 0 + b < 2 ^ (w.bits - 1)) :
    ∃ t r, apply .add w a b tmp = .ok t ∧ apply .subtract w t b out = .ok r ∧
      r = a := by
  cases w
  case w64 =>
    simp only [Width.bits, minValue] at hin hsum
    refine ⟨int64_add_scalar a b tmp a.length,
      int64_sub_scalar (int64_add_scalar a b tmp a.length) b out
        (int64_add_scalar a b tmp a.length).length, rfl, rfl, ?_⟩
    simp only [int64_add_scalar, int64_sub_scalar, Int.toNat_natCast]
    exact roundTrip_core 64 (by omega) a tmp out b h1 h2 hin hsum
  case w32 =>
    simp only [Width.bits, minValue] at hin hsum
    refine ⟨int32_add_scalar a b tmp a.length,
      int32_sub_scalar (int32_add_scalar a b tmp a.length) b out
        (int32_add_scalar a b tmp a.length).length, rfl, rfl, ?_⟩
    simp only [int32_add_scalar, int32_sub_scalar, Int.toNat_natCast]
    exact roundTrip_core 32 (by omega) a tmp out b h1 h2 hin hsum

/-- C6 witness: width 32, `a = [5]`, `b = 3`: add then subtract restores
`[5]`. -/
theorem claim_C6_witness :
    (([0] : List Int).length = ([5] : List Int).length ∧
     ([0] : List Int).length = ([5] : List Int).length ∧
     (∀ i, i < ([5] : List Int).length →
       minValue Width.w32.bits ≤ ([5] : List Int).getD i 0 ∧
       ([5] : List Int).getD i 0 < 2 ^ (Width.w32.bits - 1)) ∧
     (∀ i, i < ([5] : List Int).length →
       minValue Width.w32.bits ≤ ([5] : List Int).getD i 0 + 3 ∧
       ([5] : List Int).getD i 0 + 3 < 2 ^ (Width.w32.bits - 1))) ∧
    (∃ t r, apply .add .w32 [5] 3 [0] = .ok t ∧
      apply .subtract .w32 t 3 [0] = .ok r ∧ r = [5]) :=
  ⟨⟨by decide, by decide, by decide, by decide⟩,
   claim_C6 .w32 [5] [0] [0] 3 (by decide) (by decide) (by decide)
     (by decide)⟩

/-- C3: for every width, calling Divide or Modulo with scalar `0` always
fails with `DivisionByZero`, and the failure carries the output buffer
exactly as it was — nothing is written. -/
theorem claim_C3 (w : Width) (a out : List Int) :
    apply .divide w a 0 out = .error (.divisionByZero, out) ∧
    apply .modulo w a 0 out = .error (.divisionByZero, out) := by
  cases w <;> exact ⟨rfl, rfl⟩

/-- C7 counterexample: a zero-length Divide call with scalar `0` does not
succeed — it fails with `DivisionByZero`, since the divisor check runs
before the loop regardless of the length.  The claim asserts such a call
returns no error. -/
theorem claim_C7_counterexample :
    apply .divide .w32 [] 0 [5] = .error (.divisionByZero, [5]) := by decide

/-- C7 amended: a zero-length call leaves the output buffer unchanged for
every operation and width, and succeeds for every operation except Divide
and Modulo with scalar `0`, which fail with `DivisionByZero` (the divisor
check is up-front and independent of the length) while still leaving the
output unchanged. -/
theorem claim_C7_amended (op : OperationKind) (w : Width) (b : Int)
    (out : List Int) :
    apply op w [] b out =
      if (op = .divide ∨ op = .modulo) ∧ b = 0 then
        .error (.divisionByZero, out)
      else .ok out := by
  cases op <;> cases w <;> by_cases hb : b = 0 <;>
    simp [apply, hb, int64_add_scalar, int64_sub_scalar, int64_mul_scalar,
      int64_div_scalar, int64_mod_scalar, int32_add_scalar, int32_sub_scalar,
      int32_mul_scalar, int32_div_scalar, int32_mod_scalar, totalLoop,
      fallibleLoop]

/-- C8: for every operation, width, buffer and scalar, the in-place call
(output aliased to input) returns exactly what the two-buffer call returns
when the disjoint output starts with the input's contents: each output
position depends only on the corresponding input position. -/
theorem claim_C8 (op : OperationKind) (w : Width) (buf : List Int) (b : Int) :
    applyAliased op w buf b = apply op w buf b buf := by
  have ht : ∀ f : Int → Int,
      totalLoopAliased f buf.length 0 buf =
        totalLoop f buf buf.length 0 buf :=
    fun f => totalLoopAliased_eq f buf buf.length 0 buf (fun j _ => rfl)
  have hf : ∀ f : Int → Except KernelError Int,
      fallibleLoopAliased f buf.length 0 buf =
        fallibleLoop f buf buf.length 0 buf :=
    fun f => fallibleLoopAliased_eq f buf buf.length 0 buf (fun j _ => rfl)
  cases op <;> cases w <;>
    simp [apply, applyAliased, int64_add_scalar, int64_sub_scalar,
      int64_mul_scalar, int64_div_scalar, int64_mod_scalar, int32_add_scalar,
      int32_sub_scalar, int32_mul_scalar, int32_div_scalar, int32_mod_scalar,
      Int.toNat_natCast, ht, hf]

/-- C9: every call — for every operation, width, input, scalar and output —
returns a buffer (complete on success, partial on failure) of the output's
length whose elements from the input length onwards are the untouched
elements of the original output: only `result[0, len)` is ever mutated, and
the input buffer and scalar, being read-only values of the embedding, are
never written at all. -/
theorem claim_C9 (op : OperationKind) (w : Width) (a : List Int) (b : Int)
    (out : List Int) :
    (applyBuf (apply op w a b out)).length = out.length ∧
    (applyBuf (apply op w a b out)).drop a.length = out.drop a.length := by
  cases op <;> cases w
  case add.w64 =>
    simpa [apply, int64_add_scalar, Int.toNat_natCast, applyBuf] using
      buf_spec_total (fun x => wrap 64 (x + b)) a out
  case add.w32 =>
    simpa [apply, int32_add_scalar, Int.toNat_natCast, applyBuf] using
      buf_spec_total (fun x => wrap 32 (x + b)) a out
  case subtract.w64 =>
    simpa [apply, int64_sub_scalar, Int.toNat_natCast, applyBuf] using
      buf_spec_total (fun x => wrap 64 (x - b)) a out
  case subtract.w32 =>
    simpa [apply, int32_sub_scalar, Int.toNat_natCast, applyBuf] using
      buf_spec_total (fun x => wrap 32 (x - b)) a out
  case multiply.w64 =>
    simpa [apply, int64_mul_scalar, Int.toNat_natCast, applyBuf] using
      buf_spec_total (fun x => wrap 64 (x * b)) a out
  case multiply.w32 =>
    simpa [apply, int32_mul_scalar, Int.toNat_natCast, applyBuf] using
      buf_spec_total (fun x => wrap 32 (x * b)) a out
  case divide.w64 =>
    by_cases hb : b = 0
    · simp [apply, hb, applyBuf]
    · simpa [apply, hb, int64_div_scalar, Int.toNat_natCast] using
        buf_spec_fallible (fun x => cDiv 64 x b) a out
  case divide.w32 =>
    by_cases hb : b = 0
    · simp [apply, hb, applyBuf]
    · simpa [apply, hb, int32_div_scalar, Int.toNat_natCast] using
        buf_spec_fallible (fun x => cDiv 32 x b) a out
  case modulo.w64 =>
    by_cases hb : b = 0
    · simp [apply, hb, applyBuf]
    · simpa [apply, hb, int64_mod_scalar, Int.toNat_natCast] using
        buf_spec_fallible (fun x => cMod 64 x b) a out
  case modulo.w32 =>
    by_cases hb : b = 0
    · simp [apply, hb, applyBuf]
    · simpa [apply, hb, int32_mod_scalar, Int.toNat_natCast] using
        buf_spec_fallible (fun x => cMod 32 x b) a out

/-- C10: a negative `len` — representable because the C parameter is a
signed `int` — makes every kernel perform zero iterations: the result
buffer is returned unchanged and the divide/modulo kernels report no
error, exactly as for `len == 0`. -/
theorem claim_C10 (a result : List Int) (b : Int) (len : Int)
    (h : len < 0) :
    int64_add_scalar a b result len = result ∧
    int64_sub_scalar a b result len = result ∧
    int64_mul_scalar a b result len = result ∧
    int64_div_scalar a b result len = .ok result ∧
    int64_mod_scalar a b result len = .ok result ∧
    int32_add_scalar a b result len = result ∧
    int32_sub_scalar a b result len = result ∧
    int32_mul_scalar a b result len = result ∧
    int32_div_scalar a b result len = .ok result ∧
    int32_mod_scalar a b result len = .ok result := by
  have h0 : len.toNat = 0 := by omega
  simp [int64_add_scalar, int64_sub_scalar, int64_mul_scalar,
    int64_div_scalar, int64_mod_scalar, int32_add_scalar, int32_sub_scalar,
    int32_mul_scalar, int32_div_scalar, int32_mod_scalar, h0, totalLoop,
    fallibleLoop]

/-- C10 witness: the kernels applied to `a = [5]`, `b = 3`, `result = [7]`
and the negative length `-1` leave the result buffer untouched. -/
theorem claim_C10_witness :
    (-1 : Int) < 0 ∧
    (int64_add_scalar [5] 3 [7] (-1) = [7] ∧
     int64_sub_scalar [5] 3 [7] (-1) = [7] ∧
     int64_mul_scalar [5] 3 [7] (-1) = [7] ∧
     int64_div_scalar [5] 3 [7] (-1) = .ok [7] ∧
     int64_mod_scalar [5] 3 [7] (-1) = .ok [7] ∧
     int32_add_scalar [5] 3 [7] (-1) = [7] ∧
     int32_sub_scalar [5] 3 [7] (-1) = [7] ∧
     int32_mul_scalar [5] 3 [7] (-1) = [7] ∧
     int32_div_scalar [5] 3 [7] (-1) = .ok [7] ∧
     int32_mod_scalar [5] 3 [7] (-1) = .ok [7]) :=
  ⟨by decide, claim_C10 [5] [7] 3 (-1) (by decide)⟩

end Chai
